import Mathlib

/-!
Verification of the yeti-admin benchmark engine against its specification.

The development shallowly embeds the Rust sources:
* `src/benchmarks/src/bin/load_realtime.rs` — the streaming (WebSocket / SSE)
  load generators (`run_ws_test`, `run_sse_test`);
* `src/resources/benchmarks.rs` — the runner resource (`BenchmarksResource::post`);
* `src/resources/bestresults.rs` — the best-results aggregation
  (`BestResultsResource::get`).

The metrics aggregator (`yeti_benchmarks::metrics`) is used by every binary but
its source file is not part of the provided tree; it is modelled from the spec
(section 4.2) where needed.

Machine integers are modelled as `Nat` (counters only ever increase and stay far
below 2^64 in every scenario considered here; no wrap-around behaviour is part
of any claim), and floating-point throughput values as `Rat` (the claims only
compare them, and JSON numbers carry no NaN).
-/

/-- Modelled from the spec: `AggregatorState` of section 3 / `Metrics` of
`yeti_benchmarks::metrics` (source file not in the provided tree):
success_count, error_count, total_bytes and a growable collection of latency
values. -/
structure Metrics where
  success_count : Nat
  error_count : Nat
  total_bytes : Nat
  latencies : List Nat
deriving DecidableEq, Repr

/-- `Metrics::new()`: all counters zero, no latency samples. -/
def Metrics.new : Metrics := ⟨0, 0, 0, []⟩

/-- Modelled from the spec (section 4.2): `record_success(latency, bytes)`
increments success_count, adds to total_bytes, and appends the latency value. -/
def Metrics.record_success (m : Metrics) (latency bytes : Nat) : Metrics :=
  { m with
    success_count := m.success_count + 1
    total_bytes := m.total_bytes + bytes
    latencies := m.latencies ++ [latency] }

/-- Modelled from the spec (section 4.2): `record_error()` increments
error_count only. -/
def Metrics.record_error (m : Metrics) : Metrics :=
  { m with error_count := m.error_count + 1 }

/-- One aggregator call, as issued by a worker. -/
inductive AggOp where
  | success (latency bytes : Nat)
  | error
deriving DecidableEq, Repr

/-- Whether an aggregator call is a `record_success` call. -/
def AggOp.isSuccess : AggOp → Bool
  | .success _ _ => true
  | .error => false

/-- Apply a sequence of aggregator calls in order.  Since each call is a single
atomic state transition (the spec demands per-field linearizability), every
concurrent execution is equivalent to applying some sequence of the issued
calls. -/
def applyOps (m : Metrics) : List AggOp → Metrics
  | [] => m
  | .success l b :: rest => applyOps (m.record_success l b) rest
  | .error :: rest => applyOps m.record_error rest

theorem applyOps_success_count (ops : List AggOp) (m : Metrics) :
    (applyOps m ops).success_count =
      m.success_count + (ops.countP (fun o => o.isSuccess)) := by
  induction ops generalizing m with
  | nil => simp [applyOps]
  | cons o rest ih =>
    cases o with
    | success l b =>
      simp [applyOps, ih, Metrics.record_success, AggOp.isSuccess,
        List.countP_cons]
      omega
    | error =>
      simp [applyOps, ih, Metrics.record_error, AggOp.isSuccess,
        List.countP_cons]

theorem applyOps_error_count (ops : List AggOp) (m : Metrics) :
    (applyOps m ops).error_count =
      m.error_count + (ops.countP (fun o => !o.isSuccess)) := by
  induction ops generalizing m with
  | nil => simp [applyOps]
  | cons o rest ih =>
    cases o with
    | success l b =>
      simp [applyOps, ih, Metrics.record_success, AggOp.isSuccess,
        List.countP_cons]
    | error =>
      simp [applyOps, ih, Metrics.record_error, AggOp.isSuccess,
        List.countP_cons]
      omega

/-- C1: For every K concurrent callers making any interleaving of N total calls
to `record_success` and `record_error`, the final success_count equals exactly
the number of `record_success` calls issued and error_count equals exactly the
number of `record_error` calls issued — no lost updates, no double-counting.
An interleaving of the K callers' call lists is (in particular) a permutation
of their concatenation; each call is one atomic transition, so the concurrent
execution applies the calls in that interleaved order. -/
theorem aggregator_linearizable_counts
    (callers : List (List AggOp)) (interleaving : List AggOp)
    (h : interleaving.Perm callers.flatten) :
    (applyOps Metrics.new interleaving).success_count =
        (callers.map (fun ops => ops.countP (fun o => o.isSuccess))).sum ∧
      (applyOps Metrics.new interleaving).error_count =
        (callers.map (fun ops => ops.countP (fun o => !o.isSuccess))).sum := by
  constructor
  · rw [applyOps_success_count, h.countP_eq]
    simp [Metrics.new, List.countP_flatten]
  · rw [applyOps_error_count, h.countP_eq]
    simp [Metrics.new, List.countP_flatten]

/-- Concrete witness for C1: two callers, one issuing success-success-error and
one issuing error-success, under a genuinely interleaved schedule. -/
theorem aggregator_linearizable_counts_witness :
    (applyOps Metrics.new
        [AggOp.error, AggOp.success 1 10, AggOp.success 2 20, AggOp.error,
          AggOp.success 3 30]).success_count = 3 ∧
      (applyOps Metrics.new
        [AggOp.error, AggOp.success 1 10, AggOp.success 2 20, AggOp.error,
          AggOp.success 3 30]).error_count = 2 := by
  have h := aggregator_linearizable_counts
    [[AggOp.success 1 10, AggOp.success 2 20, AggOp.error],
      [AggOp.error, AggOp.success 3 30]]
    [AggOp.error, AggOp.success 1 10, AggOp.success 2 20, AggOp.error,
      AggOp.success 3 30]
    (by decide)
  simpa using h

/-!
## Streaming adapter: WebSocket subscribers (`run_ws_test`, load_realtime.rs)

A subscriber's interaction with the network is a trace of receive results.
Each loop iteration of the Rust worker (lines 76-89) performs
`tokio::time::timeout(Duration::from_secs(5), ws.next())`; the possible
results are a message, a receive error, end of stream, or the 5-second
timeout elapsing.  `dt` is the wall-clock seconds the receive took (a timeout
takes exactly 5).  Time is in whole seconds.
-/

/-- One receive result seen by a WebSocket subscriber. -/
inductive WsEvent where
  | msg (bytes dt : Nat)
  | recvErr (dt : Nat)
  | streamEnd (dt : Nat)
  | timeout
deriving DecidableEq, Repr

/-- Wall-clock seconds consumed by one receive. A timeout consumes exactly the
5-second bound. -/
def WsEvent.dur : WsEvent → Nat
  | .msg _ dt => dt
  | .recvErr dt => dt
  | .streamEnd dt => dt
  | .timeout => 5

/-- A trace is well formed when every receive resolves within the 5-second
timeout bound — exactly what `tokio::time::timeout(5s, ...)` enforces. -/
def WsWF (evs : List WsEvent) : Prop := ∀ e ∈ evs, e.dur ≤ 5

/-- The subscriber loop of `run_ws_test` (load_realtime.rs lines 76-89):
`while Instant::now() < deadline`, then a 5-second-bounded receive;
a message records one success with latency 0 and the payload size and loops;
a receive error records one error and breaks; end of stream breaks;
a timeout records nothing and loops.  Returns the final metrics and the
wall-clock instant at which the loop exits. -/
def wsRun (D : Nat) : Nat → Metrics → List WsEvent → Metrics × Nat
  | t, m, [] => (m, t)
  | t, m, e :: rest =>
    if t < D then
      match e with
      | .msg bytes dt => wsRun D (t + dt) (m.record_success 0 bytes) rest
      | .recvErr dt => (m.record_error, t + dt)
      | .streamEnd dt => (m, t + dt)
      | .timeout => wsRun D (t + 5) m rest
    else (m, t)

/-- Result of one whole subscriber task. -/
structure SubResult where
  metrics : Metrics
  finish : Nat
  closed : Bool
deriving DecidableEq, Repr

/-- One whole WebSocket subscriber task (load_realtime.rs lines 64-92): if the
initial `connect_async_tls_with_config` fails the task returns at once —
recording nothing; otherwise it runs the receive loop and finally calls
`ws.close(None)`. -/
def wsSubscriber (connectOk : Bool) (D t0 : Nat) (m0 : Metrics)
    (evs : List WsEvent) : SubResult :=
  if connectOk then
    let r := wsRun D t0 m0 evs
    ⟨r.1, r.2, true⟩
  else
    ⟨m0, t0, false⟩

/-- The instants at which the WebSocket subscriber begins a receive: a receive
begins only after the `Instant::now() < deadline` guard passes. -/
def wsRecvBegins (D : Nat) : Nat → List WsEvent → List Nat
  | _, [] => []
  | t, e :: rest =>
    if t < D then
      t :: (match e with
        | .msg _ dt => wsRecvBegins D (t + dt) rest
        | .recvErr _ => []
        | .streamEnd _ => []
        | .timeout => wsRecvBegins D (t + 5) rest)
    else []

/-- The publisher loop of `run_ws_test` (load_realtime.rs lines 103-117):
`while Instant::now() < deadline` POST one message and discard the result
(`let _ = ... .send().await`).  The closure captures only the HTTP client, the
URL and the credentials — it holds no reference to the metrics; the model
returns the number of POSTs attempted, which is the loop's only observable.
Each element of `sends` is one attempted POST: whether it succeeded and how
many seconds it took. -/
def publisherPosts (D : Nat) : Nat → List (Bool × Nat) → Nat
  | _, [] => 0
  | t, (_, dt) :: rest =>
    if t < D then 1 + publisherPosts D (t + dt) rest else 0

/-- The whole `run_ws_test` run (load_realtime.rs lines 37-129): spawn one
subscriber per VU sharing one metrics handle, spawn the publisher (which never
touches the metrics), wait for everything, and take
`elapsed = duration.as_secs_f64()` (line 125) — the nominal configured
duration.  Each worker is a pair (initial connect succeeded?, receive trace).
Returns the aggregated metrics and the elapsed value handed to
`metrics.summary`. -/
def wsRunAll (D : Nat) (pubSends : List (Bool × Nat))
    (workers : List (Bool × List WsEvent)) : Metrics × Nat :=
  (workers.foldl (fun m w => (wsSubscriber w.1 D 0 m w.2).metrics) Metrics.new,
    D)

/-- Following the SPEC's words (section 4.1 / C2), for comparison with the
code's elapsed value: the actually measured wall-clock span from run start
(instant 0) to the completion of the last worker. -/
def specMeasuredSpan (finishTimes : List Nat) : Nat :=
  finishTimes.foldr max 0

/-!
## Streaming adapter: SSE subscribers (`run_sse_test`, load_realtime.rs)

The SSE subscriber receives raw chunks of a long-lived chunked response.  The
Rust worker (lines 161-178) counts, in each chunk, the lines (Rust
`str::lines` semantics) that start with `"data:"` and records
`msg_count.max(1)` successes, each with the chunk's byte length.  Chunk text
is modelled as a `List Char` and its byte length as the character count (the
claims only concern how many successes are recorded, never byte totals of
non-ASCII chunks).
-/

/-- Split on every newline character; the segments between newlines, in order
(a trailing newline yields a final empty segment). -/
def splitNl : List Char → List (List Char)
  | [] => [[]]
  | c :: cs =>
    if c = '\n' then [] :: splitNl cs
    else
      match splitNl cs with
      | [] => [[c]]
      | seg :: segs => (c :: seg) :: segs

/-- Remove one trailing carriage return, as Rust's `str::lines` does for a
line that was terminated by a newline. -/
def stripCR (l : List Char) : List Char :=
  if l.getLast? = some '\r' then l.dropLast else l

/-- Rust `str::lines`: split at newlines, strip a carriage return from each
newline-terminated segment, and omit the empty segment a final newline would
produce (the final segment is kept verbatim when non-empty). -/
def rustLines (s : List Char) : List (List Char) :=
  let segs := splitNl s
  segs.dropLast.map stripCR ++
    (if segs.getLast?.getD [] = [] then [] else [segs.getLast?.getD []])

/-- Does `l` start with the pattern `p` (Rust `str::starts_with`)? -/
def listStartsWith : (p l : List Char) → Bool
  | [], _ => true
  | _ :: _, [] => false
  | p :: ps, c :: cs => p == c && listStartsWith ps cs

/-- The SSE data marker `"data:"`. -/
def dataMarker : List Char := ['d', 'a', 't', 'a', ':']

/-- load_realtime.rs line 166:
`text.lines().filter(|l| l.starts_with("data:")).count()`. -/
def sseMsgCount (s : List Char) : Nat :=
  ((rustLines s).filter (fun l => listStartsWith dataMarker l)).length

/-- Record `k` successes in a row, each with latency 0 and the same byte
count — the `for _ in 0..k { m.record_success(0, chunk.len()) }` loop. -/
def Metrics.recordSuccesses (m : Metrics) : Nat → Nat → Metrics
  | 0, _ => m
  | k + 1, bytes => (m.record_success 0 bytes).recordSuccesses k bytes

/-- One receive result seen by an SSE subscriber. -/
inductive SseEvent where
  | chunk (data : List Char) (dt : Nat)
  | recvErr (dt : Nat)
  | streamEnd (dt : Nat)
  | timeout
deriving DecidableEq, Repr

/-- Wall-clock seconds consumed by one receive. A timeout consumes exactly the
5-second bound. -/
def SseEvent.dur : SseEvent → Nat
  | .chunk _ dt => dt
  | .recvErr dt => dt
  | .streamEnd dt => dt
  | .timeout => 5

/-- A trace is well formed when every receive resolves within the 5-second
timeout bound. -/
def SseWF (evs : List SseEvent) : Prop := ∀ e ∈ evs, e.dur ≤ 5

/-- The subscriber loop of `run_sse_test` (load_realtime.rs lines 161-178):
`while Instant::now() < deadline`, then a 5-second-bounded receive on the byte
stream; a chunk records `msg_count.max(1)` successes (line 167) each with the
chunk length and loops; a receive error records one error and breaks; end of
stream breaks; a timeout records nothing and loops. -/
def sseRun (D : Nat) : Nat → Metrics → List SseEvent → Metrics × Nat
  | t, m, [] => (m, t)
  | t, m, e :: rest =>
    if t < D then
      match e with
      | .chunk data dt =>
          sseRun D (t + dt)
            (m.recordSuccesses (max (sseMsgCount data) 1) data.length) rest
      | .recvErr dt => (m.record_error, t + dt)
      | .streamEnd dt => (m, t + dt)
      | .timeout => sseRun D (t + 5) m rest
    else (m, t)

/-- One whole SSE subscriber task (load_realtime.rs lines 153-179): if the
initial GET fails the task returns at once — recording nothing; otherwise it
runs the receive loop.  Unlike the WebSocket worker there is no explicit close
call after the loop (the connection is released when the response stream is
dropped), so `closed` is `false`. -/
def sseSubscriber (connectOk : Bool) (D t0 : Nat) (m0 : Metrics)
    (evs : List SseEvent) : SubResult :=
  if connectOk then
    let r := sseRun D t0 m0 evs
    ⟨r.1, r.2, false⟩
  else
    ⟨m0, t0, false⟩

/-- The instants at which the SSE subscriber begins a receive. -/
def sseRecvBegins (D : Nat) : Nat → List SseEvent → List Nat
  | _, [] => []
  | t, e :: rest =>
    if t < D then
      t :: (match e with
        | .chunk _ dt => sseRecvBegins D (t + dt) rest
        | .recvErr _ => []
        | .streamEnd _ => []
        | .timeout => sseRecvBegins D (t + 5) rest)
    else []

/-- The whole `run_sse_test` run (load_realtime.rs lines 131-215): one
subscriber per VU sharing one metrics handle, a publisher that never touches
the metrics, and `elapsed = duration.as_secs_f64()` (line 211) — the nominal
configured duration. -/
def sseRunAll (D : Nat) (pubSends : List (Bool × Nat))
    (workers : List (Bool × List SseEvent)) : Metrics × Nat :=
  (workers.foldl (fun m w => (sseSubscriber w.1 D 0 m w.2).metrics) Metrics.new,
    D)

/-! ## Helper lemmas about the streaming models -/

theorem wsRun_timeout_only (D : Nat) (evs : List WsEvent)
    (h : ∀ e ∈ evs, e = WsEvent.timeout) :
    ∀ t m, (wsRun D t m evs).1 = m := by
  induction evs with
  | nil => intro t m; rfl
  | cons e rest ih =>
    intro t m
    have he : e = WsEvent.timeout := h e (List.mem_cons_self _ _)
    have hrest : ∀ e ∈ rest, e = WsEvent.timeout :=
      fun x hx => h x (List.mem_cons_of_mem _ hx)
    subst he
    by_cases ht : t < D
    · simp only [wsRun, if_pos ht]
      exact ih hrest _ _
    · simp [wsRun, if_neg ht]

theorem sseRun_timeout_only (D : Nat) (evs : List SseEvent)
    (h : ∀ e ∈ evs, e = SseEvent.timeout) :
    ∀ t m, (sseRun D t m evs).1 = m := by
  induction evs with
  | nil => intro t m; rfl
  | cons e rest ih =>
    intro t m
    have he : e = SseEvent.timeout := h e (List.mem_cons_self _ _)
    have hrest : ∀ e ∈ rest, e = SseEvent.timeout :=
      fun x hx => h x (List.mem_cons_of_mem _ hx)
    subst he
    by_cases ht : t < D
    · simp only [sseRun, if_pos ht]
      exact ih hrest _ _
    · simp [sseRun, if_neg ht]

theorem wsSubscriber_timeout_only (ok : Bool) (D t : Nat) (m : Metrics)
    (evs : List WsEvent) (h : ∀ e ∈ evs, e = WsEvent.timeout) :
    (wsSubscriber ok D t m evs).metrics = m := by
  cases ok with
  | false => rfl
  | true => simpa [wsSubscriber] using wsRun_timeout_only D evs h t m

theorem sseSubscriber_timeout_only (ok : Bool) (D t : Nat) (m : Metrics)
    (evs : List SseEvent) (h : ∀ e ∈ evs, e = SseEvent.timeout) :
    (sseSubscriber ok D t m evs).metrics = m := by
  cases ok with
  | false => rfl
  | true => simpa [sseSubscriber] using sseRun_timeout_only D evs h t m

theorem wsRunAll_timeout_only (D : Nat) (pub : List (Bool × Nat))
    (workers : List (Bool × List WsEvent))
    (h : ∀ w ∈ workers, ∀ e ∈ w.2, e = WsEvent.timeout) :
    (wsRunAll D pub workers).1 = Metrics.new := by
  unfold wsRunAll
  induction workers with
  | nil => rfl
  | cons w rest ih =>
    have hw := h w (List.mem_cons_self _ _)
    have hrest : ∀ w ∈ rest, ∀ e ∈ w.2, e = WsEvent.timeout :=
      fun x hx => h x (List.mem_cons_of_mem _ hx)
    simp only [List.foldl_cons, wsSubscriber_timeout_only w.1 D 0 _ w.2 hw]
    exact ih hrest

theorem sseRunAll_timeout_only (D : Nat) (pub : List (Bool × Nat))
    (workers : List (Bool × List SseEvent))
    (h : ∀ w ∈ workers, ∀ e ∈ w.2, e = SseEvent.timeout) :
    (sseRunAll D pub workers).1 = Metrics.new := by
  unfold sseRunAll
  induction workers with
  | nil => rfl
  | cons w rest ih =>
    have hw := h w (List.mem_cons_self _ _)
    have hrest : ∀ w ∈ rest, ∀ e ∈ w.2, e = SseEvent.timeout :=
      fun x hx => h x (List.mem_cons_of_mem _ hx)
    simp only [List.foldl_cons, sseSubscriber_timeout_only w.1 D 0 _ w.2 hw]
    exact ih hrest

theorem wsRecvBegins_lt (D : Nat) (evs : List WsEvent) :
    ∀ t s, s ∈ wsRecvBegins D t evs → s < D := by
  induction evs with
  | nil => intro t s h; simp [wsRecvBegins] at h
  | cons e rest ih =>
    intro t s h
    by_cases ht : t < D
    · simp only [wsRecvBegins, if_pos ht] at h
      rcases List.mem_cons.mp h with rfl | h2
      · exact ht
      · cases e with
        | msg b dt => exact ih _ _ h2
        | recvErr dt => simp at h2
        | streamEnd dt => simp at h2
        | timeout => exact ih _ _ h2
    · simp [wsRecvBegins, if_neg ht] at h

theorem sseRecvBegins_lt (D : Nat) (evs : List SseEvent) :
    ∀ t s, s ∈ sseRecvBegins D t evs → s < D := by
  induction evs with
  | nil => intro t s h; simp [sseRecvBegins] at h
  | cons e rest ih =>
    intro t s h
    by_cases ht : t < D
    · simp only [sseRecvBegins, if_pos ht] at h
      rcases List.mem_cons.mp h with rfl | h2
      · exact ht
      · cases e with
        | chunk d dt => exact ih _ _ h2
        | recvErr dt => simp at h2
        | streamEnd dt => simp at h2
        | timeout => exact ih _ _ h2
    · simp [sseRecvBegins, if_neg ht] at h

theorem wsRun_finish_le (D : Nat) (evs : List WsEvent) :
    ∀ t m, WsWF evs → t ≤ D + 5 → (wsRun D t m evs).2 ≤ D + 5 := by
  induction evs with
  | nil => intro t m _ ht; simpa [wsRun] using ht
  | cons e rest ih =>
    intro t m hwf ht
    have hdur : e.dur ≤ 5 := hwf e (List.mem_cons_self _ _)
    have hwf' : WsWF rest := fun x hx => hwf x (List.mem_cons_of_mem _ hx)
    by_cases hlt : t < D
    · cases e with
      | msg b dt =>
        simp only [wsRun, if_pos hlt]
        refine ih _ _ hwf' ?_
        simp only [WsEvent.dur] at hdur
        omega
      | recvErr dt =>
        simp only [wsRun, if_pos hlt]
        simp only [WsEvent.dur] at hdur
        omega
      | streamEnd dt =>
        simp only [wsRun, if_pos hlt]
        simp only [WsEvent.dur] at hdur
        omega
      | timeout =>
        simp only [wsRun, if_pos hlt]
        refine ih _ _ hwf' ?_
        omega
    · simp only [wsRun, if_neg hlt]
      exact ht

theorem sseRun_finish_le (D : Nat) (evs : List SseEvent) :
    ∀ t m, SseWF evs → t ≤ D + 5 → (sseRun D t m evs).2 ≤ D + 5 := by
  induction evs with
  | nil => intro t m _ ht; simpa [sseRun] using ht
  | cons e rest ih =>
    intro t m hwf ht
    have hdur : e.dur ≤ 5 := hwf e (List.mem_cons_self _ _)
    have hwf' : SseWF rest := fun x hx => hwf x (List.mem_cons_of_mem _ hx)
    by_cases hlt : t < D
    · cases e with
      | chunk d dt =>
        simp only [sseRun, if_pos hlt]
        refine ih _ _ hwf' ?_
        simp only [SseEvent.dur] at hdur
        omega
      | recvErr dt =>
        simp only [sseRun, if_pos hlt]
        simp only [SseEvent.dur] at hdur
        omega
      | streamEnd dt =>
        simp only [sseRun, if_pos hlt]
        simp only [SseEvent.dur] at hdur
        omega
      | timeout =>
        simp only [sseRun, if_pos hlt]
        refine ih _ _ hwf' ?_
        omega
    · simp only [sseRun, if_neg hlt]
      exact ht

theorem recordSuccesses_success_count (k bytes : Nat) :
    ∀ m : Metrics, (m.recordSuccesses k bytes).success_count =
      m.success_count + k := by
  induction k with
  | zero => intro m; rfl
  | succ n ih =>
    intro m
    simp only [Metrics.recordSuccesses, ih, Metrics.record_success]
    omega

/-! ## Claims about the streaming adapter -/

/-- C2 counterexample: a 30-second WebSocket run in which the single
subscriber's last receive begins just before the deadline (at instant 29) and
times out five seconds later, so the last worker completes at instant 34 —
the measured wall-clock span is 34 seconds — while the code hands
`elapsed = duration.as_secs_f64() = 30` (the nominal configured duration,
load_realtime.rs line 125) to the summary calculator. -/
theorem ws_elapsed_nominal_not_measured_counterexample :
    (wsRunAll 30 []
        [(true, WsEvent.msg 100 4 :: List.replicate 6 WsEvent.timeout)]).2 = 30
  ∧ specMeasuredSpan
      [(wsSubscriber true 30 0 Metrics.new
          (WsEvent.msg 100 4 :: List.replicate 6 WsEvent.timeout)).finish] = 34
  ∧ (wsRunAll 30 []
        [(true, WsEvent.msg 100 4 :: List.replicate 6 WsEvent.timeout)]).2 ≠
      specMeasuredSpan
        [(wsSubscriber true 30 0 Metrics.new
            (WsEvent.msg 100 4 :: List.replicate 6 WsEvent.timeout)).finish] := by
  refine ⟨rfl, by decide, by decide⟩

/-- C2 (amended): in both streaming modes the elapsed value returned by the
run and passed to the summary calculator is the nominal configured duration
(`duration.as_secs_f64()`, load_realtime.rs lines 125 and 211), regardless of
the publisher outcomes and of when the workers actually finish. -/
theorem streaming_elapsed_is_nominal_duration :
    (∀ (D : Nat) (pub : List (Bool × Nat))
        (workers : List (Bool × List WsEvent)),
        (wsRunAll D pub workers).2 = D)
  ∧ (∀ (D : Nat) (pub : List (Bool × Nat))
        (workers : List (Bool × List SseEvent)),
        (sseRunAll D pub workers).2 = D) :=
  ⟨fun _ _ _ => rfl, fun _ _ _ => rfl⟩

/-- C3 counterexample: an SSE chunk containing no line starting with `data:`
(here the keep-alive comment line `: keepalive`) has marker-line count 0, yet
the subscriber records one success for it, because the code records
`msg_count.max(1)` successes per chunk (load_realtime.rs line 167). -/
theorem sse_zero_marker_chunk_counterexample :
    sseMsgCount (": keepalive".toList) = 0
  ∧ (sseRun 30 0 Metrics.new
        [SseEvent.chunk (": keepalive".toList) 1]).1.success_count = 1 := by
  constructor
  · decide
  · decide

/-- C3 (amended): for every received chunk the subscriber records
`max(k, 1)` successes, where `k` is the number of lines in the chunk starting
with `data:`; in particular a chunk with `k ≥ 1` marker lines records exactly
`k` successes, and a chunk with zero marker lines records one success, not
zero. -/
theorem sse_chunk_success_count (D t : Nat) (m : Metrics) (data : List Char)
    (dt : Nat) (h : t < D) :
    (sseRun D t m [SseEvent.chunk data dt]).1.success_count =
        m.success_count + max (sseMsgCount data) 1
  ∧ (1 ≤ sseMsgCount data →
      (sseRun D t m [SseEvent.chunk data dt]).1.success_count =
        m.success_count + sseMsgCount data) := by
  have hstep :
      (sseRun D t m [SseEvent.chunk data dt]).1 =
        m.recordSuccesses (max (sseMsgCount data) 1) data.length := by
    simp [sseRun, if_pos h]
  constructor
  · rw [hstep, recordSuccesses_success_count]
  · intro hk
    rw [hstep, recordSuccesses_success_count]
    congr 1
    omega

/-- Witness for C3 (amended): a chunk carrying two `data:` lines records
exactly two successes. -/
theorem sse_chunk_success_count_witness :
    (sseRun 30 0 Metrics.new
        [SseEvent.chunk ("data: a\ndata: b".toList) 1]).1.success_count = 2 := by
  have h := (sse_chunk_success_count 30 0 Metrics.new
      ("data: a\ndata: b".toList) 1 (by decide)).2 (by decide)
  have h2 : sseMsgCount ("data: a\ndata: b".toList) = 2 := by decide
  rw [h2] at h
  simpa [Metrics.new] using h

/-- C4: a receive timeout changes neither success_count nor error_count and
the worker keeps waiting (both streaming modes: the `Err(_) => continue`
branches, load_realtime.rs lines 87 and 176); consequently a run in which
every subscriber sees only idle timeouts — as when the publisher delivers
zero messages — ends with zero successes and zero errors aggregated. -/
theorem streaming_timeout_records_nothing :
    (∀ (D t : Nat) (m : Metrics) (rest : List WsEvent), t < D →
        wsRun D t m (WsEvent.timeout :: rest) = wsRun D (t + 5) m rest)
  ∧ (∀ (D t : Nat) (m : Metrics) (rest : List SseEvent), t < D →
        sseRun D t m (SseEvent.timeout :: rest) = sseRun D (t + 5) m rest)
  ∧ (∀ (D : Nat) (pub : List (Bool × Nat))
        (workers : List (Bool × List WsEvent)),
        (∀ w ∈ workers, ∀ e ∈ w.2, e = WsEvent.timeout) →
        (wsRunAll D pub workers).1.success_count = 0 ∧
          (wsRunAll D pub workers).1.error_count = 0)
  ∧ (∀ (D : Nat) (pub : List (Bool × Nat))
        (workers : List (Bool × List SseEvent)),
        (∀ w ∈ workers, ∀ e ∈ w.2, e = SseEvent.timeout) →
        (sseRunAll D pub workers).1.success_count = 0 ∧
          (sseRunAll D pub workers).1.error_count = 0) := by
  refine ⟨?_, ?_, ?_, ?_⟩
  · intro D t m rest h
    simp [wsRun, if_pos h]
  · intro D t m rest h
    simp [sseRun, if_pos h]
  · intro D pub workers h
    rw [wsRunAll_timeout_only D pub workers h]
    exact ⟨rfl, rfl⟩
  · intro D pub workers h
    rw [sseRunAll_timeout_only D pub workers h]
    exact ⟨rfl, rfl⟩

/-- Witness for C4: ten WebSocket subscribers and ten SSE subscribers that see
only timeouts during a 30-second run aggregate zero successes and zero
errors; and one concrete timeout step leaves the metrics untouched. -/
theorem streaming_timeout_records_nothing_witness :
    wsRun 30 0 Metrics.new [WsEvent.timeout] = wsRun 30 5 Metrics.new []
  ∧ (wsRunAll 30 []
        (List.replicate 10 (true, List.replicate 6 WsEvent.timeout))).1.success_count = 0
  ∧ (sseRunAll 30 []
        (List.replicate 10 (true, List.replicate 6 SseEvent.timeout))).1.error_count = 0 := by
  refine ⟨streaming_timeout_records_nothing.1 30 0 Metrics.new [] (by decide),
    (streaming_timeout_records_nothing.2.2.1 30 []
      (List.replicate 10 (true, List.replicate 6 WsEvent.timeout))
      (by decide)).1,
    (streaming_timeout_records_nothing.2.2.2 30 []
      (List.replicate 10 (true, List.replicate 6 SseEvent.timeout))
      (by decide)).2⟩

/-- C5 counterexample: a WebSocket subscriber whose initial connection attempt
fails returns at once (`let Ok(..) else { return; }`, load_realtime.rs lines
65-74) recording nothing — its error count is 0, not the 1 the claim
requires. -/
theorem ws_connect_failure_records_nothing_counterexample :
    (wsSubscriber false 30 0 Metrics.new []).metrics.error_count = 0
  ∧ ¬ (wsSubscriber false 30 0 Metrics.new []).metrics.error_count = 1 := by
  constructor
  · rfl
  · decide

/-- C5 (amended): a connection-level failure on an established stream records
exactly one error and terminates the worker's loop (both modes); a failure to
establish the initial connection terminates the worker immediately without
recording anything at all. -/
theorem stream_failure_error_recording (D t : Nat) (m : Metrics)
    (h : t < D) :
    (∀ (dt : Nat) (rest : List WsEvent),
        wsRun D t m (WsEvent.recvErr dt :: rest) = (m.record_error, t + dt))
  ∧ (∀ (dt : Nat) (rest : List SseEvent),
        sseRun D t m (SseEvent.recvErr dt :: rest) = (m.record_error, t + dt))
  ∧ (∀ evs : List WsEvent, (wsSubscriber false D t m evs).metrics = m)
  ∧ (∀ evs : List SseEvent, (sseSubscriber false D t m evs).metrics = m) := by
  refine ⟨?_, ?_, ?_, ?_⟩
  · intro dt rest
    simp [wsRun, if_pos h]
  · intro dt rest
    simp [sseRun, if_pos h]
  · intro evs; rfl
  · intro evs; rfl

/-- Witness for C5 (amended): a concrete mid-stream receive error at instant 3
of a 30-second run yields exactly one recorded error and ends the loop, with
the events after it never processed. -/
theorem stream_failure_error_recording_witness :
    wsRun 30 3 Metrics.new [WsEvent.recvErr 1, WsEvent.msg 9 1] =
        (Metrics.new.record_error, 4)
  ∧ (sseSubscriber false 30 0 Metrics.new []).metrics = Metrics.new := by
  refine ⟨?_, ?_⟩
  · exact (stream_failure_error_recording 30 3 Metrics.new (by decide)).1 1
      [WsEvent.msg 9 1]
  · exact (stream_failure_error_recording 30 0 Metrics.new (by decide)).2.2.2 []

/-- C6: the publisher task never mutates the aggregator.  The publisher
closures (load_realtime.rs lines 103-117 and 190-204) capture only the HTTP
client, URL and credentials — no metrics handle — and discard every send
result; hence the whole run result (all of success_count, error_count,
total_bytes and the latency collection) is identical under any two publisher
outcome sequences. -/
theorem publisher_never_mutates_metrics :
    (∀ (D : Nat) (pub pub' : List (Bool × Nat))
        (workers : List (Bool × List WsEvent)),
        wsRunAll D pub workers = wsRunAll D pub' workers)
  ∧ (∀ (D : Nat) (pub pub' : List (Bool × Nat))
        (workers : List (Bool × List SseEvent)),
        sseRunAll D pub workers = sseRunAll D pub' workers) :=
  ⟨fun _ _ _ _ => rfl, fun _ _ _ _ => rfl⟩

/-- C8 counterexample: an SSE subscriber that connected, waited out one
timeout and reached the deadline exits without performing any connection
close — `run_sse_test` has no close call after its loop (load_realtime.rs
lines 161-179; contrast `ws.close(None)` at line 91) — refuting the claim
that every streaming subscriber worker exits performing a graceful
connection close. -/
theorem sse_subscriber_never_closes_counterexample :
    (sseSubscriber true 30 0 Metrics.new [SseEvent.timeout]).closed = false
  ∧ ¬ (sseSubscriber true 30 0 Metrics.new
        [SseEvent.timeout]).closed = true := by
  constructor
  · rfl
  · decide

/-- C8 (amended): every blocking receive of a streaming subscriber is bounded
by the explicit 5-second timeout, the deadline is re-checked before each
receive (`while Instant::now() < deadline`) so no receive begins at or after
the deadline, and the loop exit instant overshoots the deadline by at most
one 5-second receive; the WebSocket worker performs its graceful
`ws.close(None)` exactly when it holds a connection, while the SSE worker
never performs an explicit close — its connection is released only by
dropping the response stream on exit. -/
theorem streaming_deadline_discipline :
    (∀ (D t : Nat) (evs : List WsEvent) (s : Nat),
        s ∈ wsRecvBegins D t evs → s < D)
  ∧ (∀ (D t : Nat) (evs : List SseEvent) (s : Nat),
        s ∈ sseRecvBegins D t evs → s < D)
  ∧ (∀ (D t : Nat) (m : Metrics) (evs : List WsEvent),
        WsWF evs → t ≤ D + 5 → (wsRun D t m evs).2 ≤ D + 5)
  ∧ (∀ (D t : Nat) (m : Metrics) (evs : List SseEvent),
        SseWF evs → t ≤ D + 5 → (sseRun D t m evs).2 ≤ D + 5)
  ∧ (∀ (ok : Bool) (D t : Nat) (m : Metrics) (evs : List WsEvent),
        (wsSubscriber ok D t m evs).closed = ok)
  ∧ (∀ (ok : Bool) (D t : Nat) (m : Metrics) (evs : List SseEvent),
        (sseSubscriber ok D t m evs).closed = false) := by
  refine ⟨?_, ?_, ?_, ?_, ?_, ?_⟩
  · intro D t evs s hs
    exact wsRecvBegins_lt D evs t s hs
  · intro D t evs s hs
    exact sseRecvBegins_lt D evs t s hs
  · intro D t m evs hwf ht
    exact wsRun_finish_le D evs t m hwf ht
  · intro D t m evs hwf ht
    exact sseRun_finish_le D evs t m hwf ht
  · intro ok D t m evs
    cases ok <;> rfl
  · intro ok D t m evs
    cases ok <;> rfl

/-- Witness for C8 (amended): on a concrete 30-second WebSocket trace whose
last receive begins at instant 29, every receive-begin instant is before the
deadline, the exit instant is at most 35, the connected WebSocket worker
closed its socket, and the connected SSE worker did not. -/
theorem streaming_deadline_discipline_witness :
    29 < 30
  ∧ (wsRun 30 0 Metrics.new
        (WsEvent.msg 100 4 :: List.replicate 6 WsEvent.timeout)).2 ≤ 35
  ∧ (wsSubscriber true 30 0 Metrics.new [WsEvent.timeout]).closed = true
  ∧ (sseSubscriber true 30 0 Metrics.new [SseEvent.timeout]).closed = false := by
  refine ⟨?_, ?_, ?_, ?_⟩
  · exact streaming_deadline_discipline.1 30 0
      (WsEvent.msg 100 4 :: List.replicate 6 WsEvent.timeout) 29 (by decide)
  · exact streaming_deadline_discipline.2.2.1 30 0 Metrics.new
      (WsEvent.msg 100 4 :: List.replicate 6 WsEvent.timeout)
      (by unfold WsWF; decide) (by decide)
  · exact streaming_deadline_discipline.2.2.2.2.1 true 30 0 Metrics.new
      [WsEvent.timeout]
  · exact streaming_deadline_discipline.2.2.2.2.2 true 30 0 Metrics.new
      [SseEvent.timeout]

/-!
## Runner resource (`BenchmarksResource::post`, src/resources/benchmarks.rs)

The POST handler is embedded as a pure function of the current runner state,
the `test` field of the request body (`none` when the field is absent or not a
string, in which case `require_str` propagates an error reply), and the
environment the handler consults: the optional TestConfig override row for the
test (its optional `duration` and `vus` numbers), whether the benchmark binary
exists on disk, whether `which` finds it on the PATH, the outcome of
`Command::spawn` (the child pid on success), and the current clock reading.
-/

/-- One entry of the `TESTS` table (benchmarks.rs lines 18-24). -/
structure TestDef where
  id : String
  name : String
  binary : String
  duration : Nat
  vus : Nat
deriving DecidableEq, Repr

/-- The `TESTS` array (benchmarks.rs lines 26-39). -/
def TESTS : List TestDef :=
  [⟨"rest-read", "REST Reads", "load-rest", 30, 50⟩,
    ⟨"rest-write", "REST Writes", "load-rest", 30, 50⟩,
    ⟨"rest-update", "REST Update", "load-rest", 30, 50⟩,
    ⟨"rest-join", "REST Join", "load-rest", 30, 50⟩,
    ⟨"graphql-read", "GraphQL Reads", "load-graphql", 30, 50⟩,
    ⟨"graphql-mutation", "GraphQL Mutations", "load-graphql", 30, 50⟩,
    ⟨"graphql-join", "GraphQL Join", "load-graphql", 30, 50⟩,
    ⟨"vector-embed", "Vector Embed", "load-vector", 30, 50⟩,
    ⟨"vector-search", "Vector Search", "load-vector", 30, 50⟩,
    ⟨"ws", "WebSocket", "load-realtime", 30, 50⟩,
    ⟨"sse", "SSE Streaming", "load-realtime", 30, 50⟩,
    ⟨"blob-retrieval", "150k Blob Retrieval", "load-blob", 30, 50⟩]

/-- `RunnerState` (benchmarks.rs lines 43-52). Times are whole seconds. -/
structure RunnerState where
  status : String
  test_name : Option String
  started_at : Option Nat
  configured_duration : Option Nat
  configured_vus : Option Nat
  last_error : Option String
  child_pid : Option Nat
deriving DecidableEq, Repr

/-- `RunnerState::default()` (benchmarks.rs lines 54-66). -/
def RunnerState.initial : RunnerState :=
  ⟨"idle", none, none, none, none, none, none⟩

/-- The environment consulted by one POST: the TestConfig row for the test
(`some (durationOverride, vusOverride)` when `get_by_id` finds one), binary
existence, `which` success, the spawn outcome, and the clock. -/
structure PostEnv where
  cfgRow : Option (Option Nat × Option Nat)
  binExists : Bool
  whichOk : Bool
  spawnPid : Option Nat
  now : Nat
deriving DecidableEq, Repr

/-- The handler's reply: a propagated body-parsing error, a `bad_request`
diagnostic, or the success JSON. -/
inductive PostReply where
  | err (msg : String)
  | badRequest (msg : String)
  | ok (testName : String) (pid : Nat)
deriving DecidableEq, Repr

/-- Whether the reply is the success reply. -/
def PostReply.isOk : PostReply → Bool
  | .ok _ _ => true
  | _ => false

/-- What one POST did: the reply, the runner state afterwards, and — when a
`Command::spawn` was attempted — the binary, test id, duration and vus it was
invoked with. -/
structure PostResult where
  reply : PostReply
  state : RunnerState
  spawned : Option (String × String × Nat × Nat)
deriving DecidableEq, Repr

/-- `BenchmarksResource::post` (benchmarks.rs lines 186-293): parse the `test`
field, reject unknown tests, reject when the runner is not idle, read the
TestConfig overrides with the `TESTS` entry as fallback, reject when the
binary is found neither on disk nor on the PATH, then spawn; on spawn success
set the full running state, on spawn failure return to idle recording the
error message. -/
def benchPost (st : RunnerState) (testId : Option String) (env : PostEnv) :
    PostResult :=
  match testId with
  | none => ⟨.err "Missing field test", st, none⟩
  | some tid =>
    match TESTS.find? (fun t => t.id == tid) with
    | none => ⟨.badRequest ("Unknown test: " ++ tid), st, none⟩
    | some tdef =>
      if st.status ≠ "idle" then
        ⟨.badRequest "A test is already running", st, none⟩
      else
        let cfg :=
          match env.cfgRow with
          | some (dOpt, vOpt) => (dOpt.getD tdef.duration, vOpt.getD tdef.vus)
          | none => (tdef.duration, tdef.vus)
        if !env.binExists && !env.whichOk then
          ⟨.badRequest ("Benchmark binary not found: " ++ tdef.binary), st,
            none⟩
        else
          match env.spawnPid with
          | some pid =>
            ⟨.ok tid pid,
              ⟨"running", some tid, some env.now, some cfg.1, some cfg.2,
                none, some pid⟩,
              some (tdef.binary, tid, cfg.1, cfg.2)⟩
          | none =>
            ⟨.badRequest ("Failed to start benchmark: " ++ tdef.binary),
              { st with
                status := "idle"
                last_error :=
                  some ("Failed to start benchmark: " ++ tdef.binary) },
              some (tdef.binary, tid, cfg.1, cfg.2)⟩

/-- C7 counterexample: with the runner idle and a TestConfig row overriding
`vus` to 0 for the known test `rest-read`, the POST is not rejected — the
handler spawns the benchmark process with a VU count of 0 and replies with
the success JSON, though the claim requires rejection before any process is
spawned. -/
theorem post_zero_vus_spawns_counterexample :
    (benchPost RunnerState.initial (some "rest-read")
        ⟨some (none, some 0), true, true, some 4242, 100⟩).spawned =
      some ("load-rest", "rest-read", 30, 0)
  ∧ (benchPost RunnerState.initial (some "rest-read")
        ⟨some (none, some 0), true, true, some 4242, 100⟩).reply =
      PostReply.ok "rest-read" 4242 := by
  constructor
  · decide
  · decide

/-- C7 (amended): a start request naming an unknown test identifier is
rejected with a diagnostic before any load is generated — no spawn is
attempted and the runner state is untouched; a VU count of zero, however, is
not validated: when the TestConfig row overrides `vus` to 0 for a known test
and the runner is idle and the binary present, the process is spawned with a
VU count of 0. -/
theorem post_config_validation :
    (∀ (st : RunnerState) (tid : String) (env : PostEnv),
        TESTS.find? (fun t => t.id == tid) = none →
        (benchPost st (some tid) env).reply =
            PostReply.badRequest ("Unknown test: " ++ tid)
          ∧ (benchPost st (some tid) env).spawned = none
          ∧ (benchPost st (some tid) env).state = st)
  ∧ (∀ (st : RunnerState) (tid : String) (tdef : TestDef) (env : PostEnv)
        (pid : Nat),
        TESTS.find? (fun t => t.id == tid) = some tdef →
        st.status = "idle" → env.cfgRow = some (none, some 0) →
        env.binExists = true → env.spawnPid = some pid →
        (benchPost st (some tid) env).spawned =
            some (tdef.binary, tid, tdef.duration, 0)
          ∧ (benchPost st (some tid) env).reply = PostReply.ok tid pid) := by
  constructor
  · intro st tid env h
    simp [benchPost, h]
  · intro st tid tdef env pid hfind hidle hcfg hbin hspawn
    simp [benchPost, hfind, hidle, hcfg, hbin, hspawn]

/-- Witness for C7 (amended): the unknown identifier `nosuch` is rejected
untouched, and the zero-VU override on `ws` leads to a spawn with 0 VUs. -/
theorem post_config_validation_witness :
    (benchPost RunnerState.initial (some "nosuch")
        ⟨none, true, true, some 7, 0⟩).reply =
      PostReply.badRequest "Unknown test: nosuch"
  ∧ (benchPost RunnerState.initial (some "ws")
        ⟨some (none, some 0), true, true, some 7, 0⟩).spawned =
      some ("load-realtime", "ws", 30, 0) := by
  constructor
  · exact (post_config_validation.1 RunnerState.initial "nosuch"
      ⟨none, true, true, some 7, 0⟩ (by decide)).1
  · exact (post_config_validation.2 RunnerState.initial "ws"
      ⟨"ws", "WebSocket", "load-realtime", 30, 50⟩
      ⟨some (none, some 0), true, true, some 7, 0⟩ 7
      (by decide) rfl rfl rfl rfl).1

/-- C9: whenever the runner state's status is not `idle`, the POST yields no
success reply (it is an error or `bad_request` diagnostic), attempts no
spawn, and returns the state exactly as it was — so, request by request, a
second benchmark process is never started while one is recorded as running. -/
theorem post_rejected_when_not_idle (st : RunnerState)
    (testId : Option String) (env : PostEnv) (h : st.status ≠ "idle") :
    (benchPost st testId env).reply.isOk = false
  ∧ (benchPost st testId env).spawned = none
  ∧ (benchPost st testId env).state = st := by
  cases testId with
  | none => exact ⟨rfl, rfl, rfl⟩
  | some tid =>
    cases hfind : TESTS.find? (fun t => t.id == tid) with
    | none => simp [benchPost, hfind, PostReply.isOk]
    | some tdef => simp [benchPost, hfind, h, PostReply.isOk]

/-- Witness for C9: a POST for the known test `rest-read` while the runner is
already `running` is rejected, spawns nothing, and leaves the state intact. -/
theorem post_rejected_when_not_idle_witness :
    (benchPost
        ⟨"running", some "sse", some 50, some 30, some 50, none, some 9⟩
        (some "rest-read") ⟨none, true, true, some 11, 60⟩).reply.isOk = false
  ∧ (benchPost
        ⟨"running", some "sse", some 50, some 30, some 50, none, some 9⟩
        (some "rest-read") ⟨none, true, true, some 11, 60⟩).state =
      ⟨"running", some "sse", some 50, some 30, some 50, none, some 9⟩ := by
  have h := post_rejected_when_not_idle
    ⟨"running", some "sse", some 50, some 30, some 50, none, some 9⟩
    (some "rest-read") ⟨none, true, true, some 11, 60⟩ (by decide)
  exact ⟨h.1, h.2.2⟩

/-!
## Best results (`BestResultsResource::get`, src/resources/bestresults.rs)

A stored `TestRun` record contributes its `testName` string (absent when the
field is missing or not a string, in which case the record is skipped) and the
numeric `throughput` found inside its `results` JSON string.  The code
(lines 40-42) turns a missing `results` field, an unparsable `results`
string, and a parsed object without a numeric `throughput` all into the value
`0.0`; the model collapses those three cases into `resultsThroughput = none`.
Floats are modelled as `Rat` (JSON numbers carry no NaN).  The `HashMap` keyed
by test name is modelled as an association list with unique keys; the
entry kept per name is `(name, throughput)` — the claim only concerns names
and throughput values.
-/

/-- One stored TestRun record, reduced to the fields the handler reads. -/
structure TestRun where
  testName : Option String
  resultsThroughput : Option Rat
deriving DecidableEq, Repr

/-- Lines 40-42: the throughput parsed out of the record's `results` string,
`0` when the field is missing, unparsable, or lacks a numeric throughput. -/
def recordThroughput (r : TestRun) : Rat :=
  r.resultsThroughput.getD 0

/-- `HashMap::get` on the association list. -/
def lookupName : List (String × Rat) → String → Option Rat
  | [], _ => none
  | (k, v) :: rest, n => if k = n then some v else lookupName rest n

/-- `HashMap::insert` on a key that is already present: replace its value. -/
def setName : List (String × Rat) → String → Rat → List (String × Rat)
  | [], _, _ => []
  | (k, v) :: rest, n, tp =>
    if k = n then (k, tp) :: rest else (k, v) :: setName rest n tp

/-- The loop body of `BestResultsResource::get` (bestresults.rs lines 33-62):
skip records without a `testName` string; compare the record's parsed
throughput with the stored entry's (`is_better = throughput > existing`);
insert when better or when the name is new. -/
def bestInsert (best : List (String × Rat)) (r : TestRun) :
    List (String × Rat) :=
  match r.testName with
  | none => best
  | some n =>
    let tp := recordThroughput r
    match lookupName best n with
    | some existing => if existing < tp then setName best n tp else best
    | none => best ++ [(n, tp)]

/-- The whole handler: fold every stored record into the empty map. -/
def bestResults (runs : List TestRun) : List (String × Rat) :=
  runs.foldl bestInsert []

theorem lookupName_setName_self (best : List (String × Rat)) (n : String)
    (tp : Rat) :
    lookupName (setName best n tp) n = (lookupName best n).map (fun _ => tp) := by
  induction best with
  | nil => rfl
  | cons p rest ih =>
    obtain ⟨k, v⟩ := p
    by_cases hk : k = n
    · simp [setName, lookupName, hk]
    · simp [setName, lookupName, hk, ih]

theorem lookupName_setName_other (best : List (String × Rat)) (n k : String)
    (tp : Rat) (hk : k ≠ n) :
    lookupName (setName best n tp) k = lookupName best k := by
  induction best with
  | nil => rfl
  | cons p rest ih =>
    obtain ⟨k', v⟩ := p
    simp only [setName]
    by_cases hk' : k' = n
    · rw [if_pos hk']
      have h1 : ¬ k' = k := fun h => hk (h ▸ hk')
      simp only [lookupName, if_neg h1]
    · rw [if_neg hk']
      by_cases hkk : k' = k
      · simp only [lookupName, if_pos hkk]
      · simp only [lookupName, if_neg hkk]
        exact ih

theorem keys_setName (best : List (String × Rat)) (n : String) (tp : Rat) :
    (setName best n tp).map Prod.fst = best.map Prod.fst := by
  induction best with
  | nil => rfl
  | cons p rest ih =>
    obtain ⟨k, v⟩ := p
    by_cases hk : k = n
    · simp [setName, hk]
    · simp [setName, hk, ih]

theorem lookupName_append_single (best : List (String × Rat)) (n k : String)
    (tp : Rat) :
    lookupName (best ++ [(n, tp)]) k =
      match lookupName best k with
      | some v => some v
      | none => if n = k then some tp else none := by
  induction best with
  | nil => simp [lookupName]
  | cons p rest ih =>
    obtain ⟨k', v⟩ := p
    by_cases hk : k' = k
    · simp [lookupName, hk]
    · simp [lookupName, hk, ih]

theorem lookupName_none_iff (best : List (String × Rat)) (n : String) :
    lookupName best n = none ↔ n ∉ best.map Prod.fst := by
  induction best with
  | nil => simp [lookupName]
  | cons p rest ih =>
    obtain ⟨k, v⟩ := p
    by_cases hk : k = n
    · simp [lookupName, hk]
    · simp [lookupName, hk, ih, Ne.symm hk]

theorem lookupName_mem (best : List (String × Rat)) (n : String) (v : Rat)
    (h : lookupName best n = some v) : (n, v) ∈ best := by
  induction best with
  | nil => simp [lookupName] at h
  | cons p rest ih =>
    obtain ⟨k, v'⟩ := p
    by_cases hk : k = n
    · subst hk
      simp [lookupName] at h
      simp [h]
    · simp [lookupName, hk] at h
      exact List.mem_cons_of_mem _ (ih h)

theorem mem_lookupName (best : List (String × Rat)) (p : String × Rat)
    (hmem : p ∈ best) (hnd : (best.map Prod.fst).Nodup) :
    lookupName best p.1 = some p.2 := by
  induction best with
  | nil => simp at hmem
  | cons q rest ih =>
    obtain ⟨k, v⟩ := q
    simp only [List.map_cons, List.nodup_cons] at hnd
    rcases List.mem_cons.mp hmem with rfl | h2
    · simp [lookupName]
    · have hk : k ≠ p.1 := by
        intro hkp
        exact hnd.1 (hkp ▸ (List.mem_map.mpr ⟨p, h2, rfl⟩))
      simp [lookupName, hk]
      exact ih h2 hnd.2

theorem bestInsert_mono (best : List (String × Rat)) (r : TestRun)
    (k : String) (v : Rat) (h : lookupName best k = some v) :
    ∃ v', lookupName (bestInsert best r) k = some v' ∧ v ≤ v' := by
  cases hname : r.testName with
  | none => exact ⟨v, by simp [bestInsert, hname, h], le_refl v⟩
  | some n =>
    cases hl : lookupName best n with
    | none =>
      refine ⟨v, ?_, le_refl v⟩
      simp only [bestInsert, hname, hl, lookupName_append_single, h]
    | some existing =>
      by_cases hb : existing < recordThroughput r
      · by_cases hk : k = n
        · subst hk
          rw [h] at hl
          obtain rfl : existing = v := by injection hl.symm
          refine ⟨recordThroughput r, ?_, le_of_lt hb⟩
          simp [bestInsert, hname, h, hb, lookupName_setName_self]
        · refine ⟨v, ?_, le_refl v⟩
          simp [bestInsert, hname, hl, hb,
            lookupName_setName_other best n k (recordThroughput r) hk, h]
      · exact ⟨v, by simp [bestInsert, hname, hl, hb, h], le_refl v⟩

theorem bestInsert_self_bound (best : List (String × Rat)) (r : TestRun)
    (n : String) (h : r.testName = some n) :
    ∃ v', lookupName (bestInsert best r) n = some v' ∧
      recordThroughput r ≤ v' := by
  cases hl : lookupName best n with
  | none =>
    refine ⟨recordThroughput r, ?_, le_refl _⟩
    simp [bestInsert, h, hl, lookupName_append_single]
  | some existing =>
    by_cases hb : existing < recordThroughput r
    · refine ⟨recordThroughput r, ?_, le_refl _⟩
      simp [bestInsert, h, hl, hb, lookupName_setName_self]
    · refine ⟨existing, ?_, not_lt.mp hb⟩
      simp [bestInsert, h, hl, hb]

theorem foldl_bestInsert_mono (runs : List TestRun) :
    ∀ (best : List (String × Rat)) (k : String) (v : Rat),
      lookupName best k = some v →
      ∃ v', lookupName (runs.foldl bestInsert best) k = some v' ∧ v ≤ v' := by
  induction runs with
  | nil => exact fun best k v h => ⟨v, h, le_refl v⟩
  | cons r rest ih =>
    intro best k v h
    obtain ⟨v₁, h₁, hle₁⟩ := bestInsert_mono best r k v h
    obtain ⟨v₂, h₂, hle₂⟩ := ih (bestInsert best r) k v₁ h₁
    exact ⟨v₂, h₂, le_trans hle₁ hle₂⟩

theorem foldl_bestInsert_bound (runs : List TestRun) :
    ∀ (best : List (String × Rat)) (r : TestRun), r ∈ runs →
      ∀ (n : String), r.testName = some n →
      ∀ (v : Rat), lookupName (runs.foldl bestInsert best) n = some v →
      recordThroughput r ≤ v := by
  induction runs with
  | nil => intro best r hr; simp at hr
  | cons r₀ rest ih =>
    intro best r hr n hname v hv
    rcases List.mem_cons.mp hr with rfl | h2
    · obtain ⟨v₁, h₁, hle₁⟩ := bestInsert_self_bound best r n hname
      obtain ⟨v₂, h₂, hle₂⟩ := foldl_bestInsert_mono rest (bestInsert best r)
        n v₁ h₁
      rw [List.foldl_cons] at hv
      rw [hv] at h₂
      injection h₂ with hv2
      subst hv2
      exact le_trans hle₁ hle₂
    · exact ih (bestInsert best r₀) r h2 n hname v hv

theorem keys_bestInsert_mem (best : List (String × Rat)) (r : TestRun)
    (k : String) :
    k ∈ (bestInsert best r).map Prod.fst ↔
      k ∈ best.map Prod.fst ∨ r.testName = some k := by
  cases hname : r.testName with
  | none => simp [bestInsert, hname]
  | some n =>
    cases hl : lookupName best n with
    | none =>
      simp only [bestInsert, hname, hl, List.map_append, List.map_cons,
        List.map_nil, List.mem_append, List.mem_singleton, Option.some_inj]
      tauto
    | some existing =>
      have hmem : n ∈ best.map Prod.fst := by
        by_contra hn
        rw [← lookupName_none_iff] at hn
        rw [hn] at hl
        cases hl
      by_cases hb : existing < recordThroughput r
      · simp only [bestInsert, hname, hl, hb, if_pos, keys_setName,
          Option.some_inj]
        constructor
        · exact fun h => Or.inl h
        · rintro (h | rfl)
          · exact h
          · exact hmem
      · simp only [bestInsert, hname, hl, hb, if_neg, Option.some_inj]
        constructor
        · exact fun h => Or.inl h
        · rintro (h | rfl)
          · exact h
          · exact hmem

theorem keys_foldl_bestInsert_mem (runs : List TestRun) :
    ∀ (best : List (String × Rat)) (k : String),
      k ∈ (runs.foldl bestInsert best).map Prod.fst ↔
        k ∈ best.map Prod.fst ∨ ∃ r ∈ runs, r.testName = some k := by
  induction runs with
  | nil => simp
  | cons r rest ih =>
    intro best k
    rw [List.foldl_cons, ih, keys_bestInsert_mem]
    simp only [List.mem_cons]
    constructor
    · rintro ((h | h) | ⟨r', hr', hn⟩)
      · exact Or.inl h
      · exact Or.inr ⟨r, Or.inl rfl, h⟩
      · exact Or.inr ⟨r', Or.inr hr', hn⟩
    · rintro (h | ⟨r', hr' | hr', hn⟩)
      · exact Or.inl (Or.inl h)
      · exact Or.inl (Or.inr (hr' ▸ hn))
      · exact Or.inr ⟨r', hr', hn⟩

theorem nodup_keys_bestInsert (best : List (String × Rat)) (r : TestRun)
    (h : (best.map Prod.fst).Nodup) :
    ((bestInsert best r).map Prod.fst).Nodup := by
  cases hname : r.testName with
  | none => simpa [bestInsert, hname] using h
  | some n =>
    cases hl : lookupName best n with
    | none =>
      have hn : n ∉ best.map Prod.fst := (lookupName_none_iff best n).mp hl
      simp only [bestInsert, hname, hl, List.map_append, List.map_cons,
        List.map_nil]
      rw [List.nodup_append]
      exact ⟨h, List.nodup_singleton n, by simpa using fun hmem => hn hmem⟩
    | some existing =>
      by_cases hb : existing < recordThroughput r
      · simpa [bestInsert, hname, hl, hb, keys_setName] using h
      · simpa [bestInsert, hname, hl, hb] using h

theorem nodup_keys_foldl_bestInsert (runs : List TestRun) :
    ∀ best : List (String × Rat), (best.map Prod.fst).Nodup →
      ((runs.foldl bestInsert best).map Prod.fst).Nodup := by
  induction runs with
  | nil => exact fun best h => h
  | cons r rest ih =>
    intro best h
    exact ih (bestInsert best r) (nodup_keys_bestInsert best r h)

/-- C10: the best-results map contains exactly one entry per distinct
`testName` occurring among the stored records (records without a `testName`
string contribute none), and each entry's throughput is at least the parsed
throughput of every record bearing that name (a record whose results are
missing, unparsable or non-numeric contributing throughput 0 via
`recordThroughput`). -/
theorem bestresults_one_max_entry_per_name (runs : List TestRun) :
    ((bestResults runs).map Prod.fst).Nodup
  ∧ (∀ name : String,
      (∃ p ∈ bestResults runs, p.1 = name) ↔
        ∃ r ∈ runs, r.testName = some name)
  ∧ (∀ r ∈ runs, ∀ p ∈ bestResults runs, r.testName = some p.1 →
      recordThroughput r ≤ p.2) := by
  have hnd : ((bestResults runs).map Prod.fst).Nodup :=
    nodup_keys_foldl_bestInsert runs [] (by simp)
  refine ⟨hnd, ?_, ?_⟩
  · intro name
    constructor
    · rintro ⟨p, hp, rfl⟩
      have hmem : p.1 ∈ (bestResults runs).map Prod.fst :=
        List.mem_map.mpr ⟨p, hp, rfl⟩
      have h := (keys_foldl_bestInsert_mem runs [] p.1).mp hmem
      simpa using h
    · intro hr
      have h : name ∈ (bestResults runs).map Prod.fst :=
        (keys_foldl_bestInsert_mem runs [] name).mpr (Or.inr hr)
      obtain ⟨p, hp, hpn⟩ := List.mem_map.mp h
      exact ⟨p, hp, hpn⟩
  · intro r hr p hp hname
    have hl : lookupName (bestResults runs) p.1 = some p.2 :=
      mem_lookupName (bestResults runs) p hp hnd
    exact foldl_bestInsert_bound runs [] r hr p.1 hname p.2 hl

/-- Witness for C10: among three stored records — two runs of `ws` with
throughputs 100 and 250 and one nameless record — the map holds the single
entry `("ws", 250)`, and the 100-throughput record is indeed bounded by it. -/
theorem bestresults_one_max_entry_per_name_witness :
    bestResults
        [⟨some "ws", some 100⟩, ⟨some "ws", some 250⟩, ⟨none, some 999⟩] =
      [("ws", 250)]
  ∧ recordThroughput ⟨some "ws", some 100⟩ ≤ (250 : Rat) := by
  constructor
  · decide
  · exact (bestresults_one_max_entry_per_name
      [⟨some "ws", some 100⟩, ⟨some "ws", some 250⟩, ⟨none, some 999⟩]).2.2
      ⟨some "ws", some 100⟩ (by simp) ("ws", 250) (by decide) rfl
